import Mathlib

/-!
Verification of the ICAN address utilities
(`crates/primitives/src/utilities.rs`).

Bytes are modelled as `Nat` values (< 256 where it matters), byte
sequences as `List Nat`, and Rust `String`s as `List Char`.  Fallible
operations (`char::to_digit`, slice-to-array conversion, `from_str`)
return `Option`, mirroring the `expect`/`unwrap` call sites of the
source.  All definitions are structurally recursive so that concrete
test vectors evaluate inside the kernel.
-/

/-! ### 64-bit lane arithmetic for keccak-f[1600] -/

/-- Two to the 64th, the lane modulus. -/
def w64 : Nat := 18446744073709551616

/-- Bitwise XOR of two 64-bit lanes. -/
def xor64 (a b : Nat) : Nat := Nat.xor a b

/-- Bitwise AND of two 64-bit lanes. -/
def and64 (a b : Nat) : Nat := Nat.land a b

/-- Bitwise complement of a 64-bit lane. -/
def not64 (a : Nat) : Nat := Nat.xor a (w64 - 1)

/-- Left-rotation of a 64-bit lane by `n` bits (`0 ≤ n < 64`).
The two shifted halves occupy disjoint bit ranges, so addition is
bitwise or. -/
def rot64 (a n : Nat) : Nat := (a * 2 ^ n) % w64 + a / 2 ^ (64 - n)

/-! ### keccak-f[1600] permutation -/

/-- The 24 round constants of keccak-f[1600], written in decimal
(0x0000000000000001, 0x0000000000008082, ..., 0x8000000080008008). -/
def keccakRC : List Nat :=
  [1, 32898,
   9223372036854808714, 9223372039002292224,
   32907, 2147483649,
   9223372039002292353, 9223372036854808585,
   138, 136,
   2147516425, 2147483658,
   2147516555, 9223372036854775947,
   9223372036854808713, 9223372036854808579,
   9223372036854808578, 9223372036854775936,
   32778, 9223372039002259466,
   9223372039002292353, 9223372036854808704,
   2147483649, 9223372039002292232]

/-- Rotation offsets of the rho step, indexed by `x + 5*y`. -/
def keccakRot : List Nat :=
  [0, 1, 62, 28, 27] ++ [36, 44, 6, 55, 20] ++ [3, 10, 43, 25, 39] ++
    [41, 45, 15, 21, 8] ++ [18, 2, 61, 56, 14]

/-- Lane `(x, y)` of a 25-lane state (row-major, index `x + 5*y`). -/
def getLane (st : List Nat) (x y : Nat) : Nat :=
  st.getD (x % 5 + 5 * (y % 5)) 0

/-- Theta step. -/
def theta (st : List Nat) : List Nat :=
  let c := (List.range 5).map fun x =>
    xor64 (xor64 (xor64 (xor64 (getLane st x 0) (getLane st x 1))
      (getLane st x 2)) (getLane st x 3)) (getLane st x 4)
  let d := (List.range 5).map fun x =>
    xor64 (c.getD ((x + 4) % 5) 0) (rot64 (c.getD ((x + 1) % 5) 0) 1)
  (List.range 25).map fun i => xor64 (st.getD i 0) (d.getD (i % 5) 0)

/-- Combined rho and pi steps: output lane `(x', y')` is the input lane
`(x' + 3*y', x')` (mod 5) rotated by its rho offset. -/
def rhoPi (st : List Nat) : List Nat :=
  (List.range 25).map fun i =>
    let xp := i % 5
    let yp := i / 5
    let x := (xp + 3 * yp) % 5
    let y := xp
    rot64 (getLane st x y) (keccakRot.getD (x % 5 + 5 * (y % 5)) 0)

/-- Chi step. -/
def chi (st : List Nat) : List Nat :=
  (List.range 25).map fun i =>
    let x := i % 5
    let y := i / 5
    xor64 (getLane st x y) (and64 (not64 (getLane st (x + 1) y)) (getLane st (x + 2) y))

/-- Iota step: XOR the round constant into lane 0. -/
def iota (rc : Nat) : List Nat → List Nat
  | [] => []
  | a :: rest => xor64 a rc :: rest

/-- The full 24-round keccak-f[1600] permutation. -/
def keccakF (st : List Nat) : List Nat :=
  keccakRC.foldl (fun s rc => iota rc (chi (rhoPi (theta s)))) st

/-! ### Sponge with rate 1088 (keccak-256) -/

/-- Original keccak pad10*1 with domain bit 0x01 (not the NIST SHA-3
0x06 variant), as used by the `sha3` crate's `Keccak256`. -/
def keccakPad (len : Nat) : List Nat :=
  let r := 136 - len % 136
  if r = 1 then [0x81] else 0x01 :: (List.replicate (r - 2) 0 ++ [0x80])

/-- Interpret up to eight bytes as a little-endian 64-bit lane. -/
def laneOfBytes (bs : List Nat) : Nat :=
  bs.foldr (fun b acc => b + 256 * acc) 0

/-- The 17 rate lanes of a 136-byte block. -/
def blockLanes (block : List Nat) : List Nat :=
  (List.range 17).map fun i => laneOfBytes ((block.drop (8 * i)).take 8)

/-- XOR a block's 17 rate lanes into the 25-lane state. -/
def absorbBlock (st : List Nat) (block : List Nat) : List Nat :=
  let lanes := blockLanes block
  (List.range 25).map fun i => xor64 (st.getD i 0) (lanes.getD i 0)

/-- Split a padded message into 136-byte blocks (fuel-recursive so the
kernel can unfold it; `fuel ≥ length` suffices). -/
def chunk136 : Nat → List Nat → List (List Nat)
  | 0, _ => []
  | _, [] => []
  | fuel + 1, l => l.take 136 :: chunk136 fuel (l.drop 136)

/-- keccak-256 of a byte sequence: pad, absorb every block through
keccak-f, and squeeze the first 32 bytes of the state (lanes are
little-endian). -/
def keccak256 (msg : List Nat) : List Nat :=
  let padded := msg ++ keccakPad msg.length
  let st := (chunk136 padded.length padded).foldl
    (fun s b => keccakF (absorbBlock s b)) (List.replicate 25 0)
  (List.range 32).map fun i => st.getD (i / 8) 0 / 2 ^ (8 * (i % 8)) % 256

/-- `KECCAK_EMPTY`, the digest of the empty input, as declared in the
source (`pub const KECCAK_EMPTY`). -/
def KECCAK_EMPTY : List Nat :=
  [0xc5, 0xd2, 0x46, 0x01, 0x86, 0xf7, 0x23, 0x3c,
   0x92, 0x7e, 0x7d, 0xb2, 0xdc, 0xc7, 0x03, 0xc0,
   0xe5, 0x00, 0xb6, 0x53, 0xca, 0x82, 0x27, 0x3b,
   0x7b, 0xfa, 0xd8, 0x04, 0x5d, 0x85, 0xa4, 0x70]

/-! ### RLP encoding (the subset exercised by `create_address`) -/

/-- Minimal big-endian byte representation of a `Nat` (empty for 0),
with structural fuel; `fuel = 9` covers every `u64`.  Mirrors the `rlp`
crate's `u64` encoding, which drops leading zero bytes. -/
def natToBEAux : Nat → Nat → List Nat → List Nat
  | 0, _, acc => acc
  | fuel + 1, n, acc =>
    if n = 0 then acc else natToBEAux fuel (n / 256) (n % 256 :: acc)

/-- Minimal big-endian bytes of a `u64` nonce. -/
def u64ToMinBE (n : Nat) : List Nat := natToBEAux 9 n []

/-- RLP encoding of a byte string (`encode_value` of the `rlp` crate):
a single byte below 0x80 stands for itself; otherwise a length prefix
`0x80 + len` for short strings, or a length-of-length form for long
ones. -/
def rlpEncodeBytes (bs : List Nat) : List Nat :=
  if bs.length = 1 ∧ bs.getD 0 0 < 0x80 then bs
  else if bs.length ≤ 55 then (0x80 + bs.length) :: bs
  else
    let lenBytes := natToBEAux 9 bs.length []
    (0xb7 + lenBytes.length) :: (lenBytes ++ bs)

/-- Wrap an RLP payload as a list (`RlpStream::new_list` framing). -/
def rlpListWrap (payload : List Nat) : List Nat :=
  if payload.length ≤ 55 then (0xc0 + payload.length) :: payload
  else
    let lenBytes := natToBEAux 9 payload.length []
    (0xf7 + lenBytes.length) :: (lenBytes ++ payload)

/-! ### Network registry and string helpers -/

/-- The `NetworkType` enum of the source. -/
inductive NetworkType where
  | Mainnet
  | Testnet
  | Private

/-- The `MAINNET`/`TESTNET`/`PRIVATE` prefix constants. -/
def networkPfx : NetworkType → List Char
  | NetworkType.Mainnet => ['c', 'b']
  | NetworkType.Testnet => ['a', 'b']
  | NetworkType.Private => ['c', 'e']

/-- Lowercase hex digit for a value below 16. -/
def hexDigitChar (n : Nat) : Char :=
  if n < 10 then Char.ofNat (48 + n) else Char.ofNat (87 + n)

/-- Lowercase hex rendering of a byte sequence, two characters per
byte, as produced by the `Debug` formatting of `B160`/`B176` (minus
the `0x` prefix, which the source strips with `replace`).  Bytes are
`u8` in the source, so the `% 16` on the high nibble is the identity. -/
def bytesToHex : List Nat → List Char
  | [] => []
  | b :: rest => hexDigitChar (b / 16 % 16) :: hexDigitChar (b % 16) :: bytesToHex rest

/-- Rust's `char::to_digit(16)` (scalar-value ranges of `0-9`, `a-f`,
`A-F`). -/
def charToDigit16 (c : Char) : Option Nat :=
  if 48 ≤ c.toNat ∧ c.toNat ≤ 57 then some (c.toNat - 48)
  else if 97 ≤ c.toNat ∧ c.toNat ≤ 102 then some (c.toNat - 87)
  else if 65 ≤ c.toNat ∧ c.toNat ≤ 70 then some (c.toNat - 55)
  else none

/-- Rust's `char::to_digit(10)` (scalar-value range of `0-9`). -/
def charToDigit10 (c : Char) : Option Nat :=
  if 48 ≤ c.toNat ∧ c.toNat ≤ 57 then some (c.toNat - 48) else none

/-- Decimal digit character. -/
def decDigitChar (n : Nat) : Char := Char.ofNat (48 + n)

/-- Decimal rendering of a `Nat` (Rust's `u32::to_string`), with
structural fuel so the kernel can unfold it. -/
def natToDecAux : Nat → Nat → List Char → List Char
  | 0, _, acc => acc
  | fuel + 1, n, acc =>
    if n < 10 then decDigitChar n :: acc
    else natToDecAux fuel (n / 10) (decDigitChar (n % 10) :: acc)

/-- Decimal rendering of a `Nat` as a character list. -/
def natToDecString (n : Nat) : List Char := natToDecAux (n + 1) n []

/-! ### The checksum encoder (`to_ican` and its helpers) -/

/-- The character-by-character hex-value-to-decimal-text conversion of
`get_number_string`: each character is converted with `to_digit(16)`
(`none` on failure, the source's `expect`) and its value is rendered as
decimal text. -/
def hexValueString : List Char → Option (List Char)
  | [] => some []
  | c :: rest =>
    match charToDigit16 c, hexValueString rest with
    | some d, some s => some (natToDecString d ++ s)
    | _, _ => none

/-- `get_number_string`: hex chars of the address, then the network
prefix, then the literal "00", each character replaced by its hex
value written in decimal. -/
def get_number_string (addr : List Nat) (network : NetworkType) : Option (List Char) :=
  hexValueString (bytesToHex addr ++ networkPfx network ++ ['0', '0'])

/-- The fold inside `calculate_checksum`: `acc = (acc*10 + digit) % 97`
over the digits, `none` when a character is not a decimal digit. -/
def checksumFold : List Char → Nat → Option Nat
  | [], acc => some acc
  | c :: rest, acc =>
    match charToDigit10 c with
    | some d => checksumFold rest ((acc * 10 + d) % 97)
    | none => none

/-- `calculate_checksum`: the mod-97 fold, subtracted from 98. -/
def calculate_checksum (numberStr : List Char) : Option Nat :=
  (checksumFold numberStr 0).map fun r => 98 - r

/-- Pairwise hex parse of a character list into bytes (the core of
`B176::from_str`); fails on an odd tail or a non-hex character. -/
def parseHexBytes : List Char → Option (List Nat)
  | [] => some []
  | [_] => none
  | c1 :: c2 :: rest =>
    match charToDigit16 c1, charToDigit16 c2, parseHexBytes rest with
    | some d1, some d2, some bs => some ((16 * d1 + d2) :: bs)
    | _, _, _ => none

/-- `B176::from_str`: exactly 44 hex characters parsed into 22 bytes. -/
def b176FromStr (s : List Char) : Option (List Nat) :=
  if s.length = 44 then parseHexBytes s else none

/-- The textual address assembled by `construct_ican_address`:
prefix, checksum zero-padded to two decimal digits, address hex. -/
def icanString (pfx : List Char) (checksum : Nat) (addr : List Nat) : List Char :=
  if checksum < 10 then pfx ++ '0' :: natToDecString checksum ++ bytesToHex addr
  else pfx ++ natToDecString checksum ++ bytesToHex addr

/-- `construct_ican_address`: format the full string and parse it back
through `B176::from_str` (the source's `unwrap`). -/
def construct_ican_address (pfx : List Char) (checksum : Nat) (addr : List Nat) :
    Option (List Nat) :=
  b176FromStr (icanString pfx checksum addr)

/-- `to_ican`: number string, checksum, then final assembly. -/
def to_ican (addr : List Nat) (network : NetworkType) : Option (List Nat) :=
  match get_number_string addr network with
  | none => none
  | some numberStr =>
    match calculate_checksum numberStr with
    | none => none
    | some checksum => construct_ican_address (networkPfx network) checksum addr

/-! ### The two derivation schemes -/

/-- The `out[12..].try_into()` conversion: succeeds exactly on a
20-byte slice. -/
def sliceTo20 (bs : List Nat) : Option (List Nat) :=
  if bs.length = 20 then some bs else none

/-- The RLP pre-image of `create_address`: a two-element list holding
the caller's 22 bytes (`caller.0.as_ref()`, the full `B176`) and the
nonce. -/
def createPreimage (caller : List Nat) (nonce : Nat) : List Nat :=
  rlpListWrap (rlpEncodeBytes caller ++ rlpEncodeBytes (u64ToMinBE nonce))

/-- `create_address`: keccak the RLP pre-image, keep the last 20 bytes,
checksum-encode with the hard-coded Mainnet tag. -/
def create_address (caller : List Nat) (nonce : Nat) : Option (List Nat) :=
  let out := keccak256 (createPreimage caller nonce)
  match sliceTo20 (out.drop 12) with
  | none => none
  | some addr => to_ican addr NetworkType.Mainnet

/-- Big-endian 32-byte rendering of a `U256` salt
(`salt.to_be_bytes::<32>()`). -/
def u256ToBE32 (n : Nat) : List Nat :=
  (List.range 32).map fun i => n / 2 ^ (8 * (31 - i)) % 256

/-- The hash pre-image of `create2_address`: marker byte 0xff, the
caller's 22 bytes (`&caller[..]`, the full `B176`), the 32-byte
big-endian salt, the 32-byte code hash. -/
def create2Preimage (caller codeHash : List Nat) (salt : Nat) : List Nat :=
  0xff :: (caller ++ u256ToBE32 salt ++ codeHash)

/-- `create2_address`: keccak the concatenation, keep the last 20
bytes, checksum-encode with the hard-coded Mainnet tag. -/
def create2_address (caller codeHash : List Nat) (salt : Nat) : Option (List Nat) :=
  let out := keccak256 (create2Preimage caller codeHash salt)
  match sliceTo20 (out.drop 12) with
  | none => none
  | some addr => to_ican addr NetworkType.Mainnet

/-- Hex-string to byte-list convenience used to state the concrete
test vectors (addresses written exactly as in the source's tests). -/
def hexToBytes (s : List Char) : List Nat := (parseHexBytes s).getD []

/-! ### Claim-side and spec-side companion definitions -/

/-- The pre-image the spec ascribes to the legacy scheme: the RLP list
of the caller's RAW 20-byte identity (the `B176` with its 2-byte
prefix-and-checksum dropped) and the nonce. -/
def createPreimageClaim (caller : List Nat) (nonce : Nat) : List Nat :=
  rlpListWrap (rlpEncodeBytes (caller.drop 2) ++ rlpEncodeBytes (u64ToMinBE nonce))

/-- The pre-image the spec ascribes to the salted scheme: marker byte,
the caller's RAW 20 bytes, the salt, the code hash. -/
def create2PreimageClaim (caller codeHash : List Nat) (salt : Nat) : List Nat :=
  0xff :: (caller.drop 2 ++ u256ToBE32 salt ++ codeHash)

/-- Little-endian base-256 digits of a number, with structural fuel.
An independent rendering used by the spec-side RLP pair encoder. -/
def leBytesAux : Nat → Nat → List Nat
  | 0, _ => []
  | fuel + 1, n => if n = 0 then [] else n % 256 :: leBytesAux fuel (n / 256)

/-- Spec-side minimal big-endian bytes of a 64-bit integer. -/
def u64MinBESpec (n : Nat) : List Nat := (leBytesAux 9 n).reverse

/-- Spec-side canonical (RLP) encoding of the two-element list of a
22-byte address and an unsigned integer, written directly from the
spec's List Encoder description: each element self-delimiting, the
whole list wrapped with a list-length prefix. -/
def rlpPairSpec (caller : List Nat) (nonce : Nat) : List Nat :=
  let callerEnc := (0x80 + caller.length) :: caller
  let nonceEnc :=
    if nonce = 0 then [0x80]
    else if nonce < 0x80 then [nonce]
    else (0x80 + (u64MinBESpec nonce).length) :: u64MinBESpec nonce
  (0xc0 + (callerEnc ++ nonceEnc).length) :: (callerEnc ++ nonceEnc)

/-- Big-endian value of a byte sequence (most significant first). -/
def beVal (bs : List Nat) : Nat := bs.foldl (fun a b => 256 * a + b) 0

/-- Spec-side decimal text of a hex digit value (0–15): one character
for 0–9, the two characters "10".."15" for 10–15. -/
def decTextSpec (d : Nat) : List Char :=
  if d < 10 then [Char.ofNat (48 + d)] else ['1', Char.ofNat (48 + (d - 10))]

/-- Total hexadecimal digit value of a character (0 on junk). -/
def hexDigitValSpec (c : Char) : Nat := (charToDigit16 c).getD 0

/-- Spec-side number string: every character of the 42-character
address-prefix-"00" string replaced by its hex digit value written as
decimal text, concatenated in order. -/
def numberStringSpec (addr : List Nat) (network : NetworkType) : List Char :=
  ((bytesToHex addr ++ networkPfx network ++ ['0', '0']).map
    fun c => decTextSpec (hexDigitValSpec c)).flatten

/-- Spec-side mod-97 fold over a decimal numeral string. -/
def specChecksumFold (s : List Char) : Nat :=
  s.foldl (fun acc c => (acc * 10 + (c.toNat - 48)) % 97) 0

/-- The two checksum digits as formatted by `construct_ican_address`:
zero-padded to width 2 when below 10. -/
def pad2 (checksum : Nat) : List Char :=
  if checksum < 10 then '0' :: natToDecString checksum else natToDecString checksum

/-- Read a decimal digit string back as an integer. -/
def decValue (s : List Char) : Nat := s.foldl (fun a c => 10 * a + (c.toNat - 48)) 0

/-- The byte at which each network's 2-character prefix arrives in the
parsed `B176`. -/
def pfxByte : NetworkType → Nat
  | NetworkType.Mainnet => 0xcb
  | NetworkType.Testnet => 0xab
  | NetworkType.Private => 0xce

/-! ### Character and hex-string lemmas -/

theorem bytesToHex_length (bs : List Nat) : (bytesToHex bs).length = 2 * bs.length := by
  induction bs with
  | nil => rfl
  | cons b rest ih => simp only [bytesToHex, List.length_cons, ih]; omega

theorem charToDigit16_lt {c : Char} {d : Nat} (h : charToDigit16 c = some d) : d < 16 := by
  unfold charToDigit16 at h
  split_ifs at h <;> simp_all <;> omega

theorem charToDigit16_hexDigitChar : ∀ v < 16, charToDigit16 (hexDigitChar v) = some v := by
  decide

theorem charToDigit16_decDigitChar : ∀ v < 10, charToDigit16 (decDigitChar v) = some v := by
  decide

theorem natToDecString_digits :
    ∀ d < 16, ∀ c ∈ natToDecString d, 48 ≤ c.toNat ∧ c.toNat ≤ 57 := by
  decide

theorem natToDecString_eq_decTextSpec : ∀ d < 16, natToDecString d = decTextSpec d := by
  decide

theorem pad2_eq : ∀ cs < 99, pad2 cs = [decDigitChar (cs / 10), decDigitChar (cs % 10)] := by
  decide

theorem mem_bytesToHex {c : Char} {bs : List Nat} (h : c ∈ bytesToHex bs) :
    ∃ v, v < 16 ∧ c = hexDigitChar v := by
  induction bs with
  | nil => cases h
  | cons b rest ih =>
    simp only [bytesToHex, List.mem_cons] at h
    rcases h with h | h | h
    · exact ⟨b / 16 % 16, Nat.mod_lt _ (by norm_num), h⟩
    · exact ⟨b % 16, Nat.mod_lt _ (by norm_num), h⟩
    · exact ih h

theorem hexValueString_eq {s : List Char} (h : ∀ c ∈ s, (charToDigit16 c).isSome) :
    hexValueString s = some ((s.map fun c => decTextSpec (hexDigitValSpec c)).flatten) := by
  induction s with
  | nil => rfl
  | cons c rest ih =>
    obtain ⟨d, hd⟩ := Option.isSome_iff_exists.mp (h c (List.mem_cons_self _ _))
    have hrest := ih fun x hx => h x (List.mem_cons_of_mem _ hx)
    have hval : hexDigitValSpec c = d := by simp [hexDigitValSpec, hd]
    simp only [hexValueString, hd, hrest, List.map_cons, List.flatten_cons, hval,
      natToDecString_eq_decTextSpec d (charToDigit16_lt hd)]

theorem hexValueString_digits {s out : List Char} (h : hexValueString s = some out) :
    ∀ c ∈ out, 48 ≤ c.toNat ∧ c.toNat ≤ 57 := by
  induction s generalizing out with
  | nil =>
    simp only [hexValueString, Option.some_inj] at h
    subst h; intro c hc; cases hc
  | cons c rest ih =>
    cases hd : charToDigit16 c with
    | none => simp [hexValueString, hd] at h
    | some d =>
      cases hr : hexValueString rest with
      | none => simp [hexValueString, hd, hr] at h
      | some s2 =>
        simp only [hexValueString, hd, hr, Option.some_inj] at h
        subst h
        intro x hx
        rcases List.mem_append.mp hx with hx | hx
        · exact natToDecString_digits d (charToDigit16_lt hd) x hx
        · exact ih hr x hx

theorem checksumFold_eq {s : List Char} (h : ∀ c ∈ s, 48 ≤ c.toNat ∧ c.toNat ≤ 57) :
    ∀ acc, checksumFold s acc =
      some (s.foldl (fun a c => (a * 10 + (c.toNat - 48)) % 97) acc) := by
  induction s with
  | nil => intro acc; rfl
  | cons c rest ih =>
    intro acc
    have hc := h c (List.mem_cons_self _ _)
    have hd : charToDigit10 c = some (c.toNat - 48) := by
      unfold charToDigit10; rw [if_pos hc]
    simp only [checksumFold, hd, List.foldl_cons]
    exact ih (fun x hx => h x (List.mem_cons_of_mem _ hx)) _

theorem checksumFold_lt {s : List Char} :
    ∀ {acc r : Nat}, checksumFold s acc = some r → acc < 97 → r < 97 := by
  induction s with
  | nil =>
    intro acc r h hacc
    simp only [checksumFold, Option.some_inj] at h
    omega
  | cons c rest ih =>
    intro acc r h hacc
    cases hd : charToDigit10 c with
    | none => simp [checksumFold, hd] at h
    | some d =>
      simp only [checksumFold, hd] at h
      exact ih h (Nat.mod_lt _ (by norm_num))

theorem parseHexBytes_cons {c1 c2 : Char} {rest : List Char} {d1 d2 : Nat} {bs : List Nat}
    (h1 : charToDigit16 c1 = some d1) (h2 : charToDigit16 c2 = some d2)
    (hr : parseHexBytes rest = some bs) :
    parseHexBytes (c1 :: c2 :: rest) = some ((16 * d1 + d2) :: bs) := by
  simp [parseHexBytes, h1, h2, hr]

theorem parseHexBytes_bytesToHex {bs : List Nat} (h : ∀ b ∈ bs, b < 256) :
    parseHexBytes (bytesToHex bs) = some bs := by
  induction bs with
  | nil => rfl
  | cons b rest ih =>
    have hb := h b (List.mem_cons_self _ _)
    have e1 := charToDigit16_hexDigitChar (b / 16 % 16) (Nat.mod_lt _ (by norm_num))
    have e2 := charToDigit16_hexDigitChar (b % 16) (Nat.mod_lt _ (by norm_num))
    have hrec := parseHexBytes_cons e1 e2 (ih fun x hx => h x (List.mem_cons_of_mem _ hx))
    have hbEq : 16 * (b / 16 % 16) + b % 16 = b := by omega
    rw [bytesToHex, hrec, hbEq]

/-! ### Structure of the checksum-encoded address -/

theorem numberChars_hex (addr : List Nat) (n : NetworkType) :
    ∀ c ∈ bytesToHex addr ++ networkPfx n ++ ['0', '0'], (charToDigit16 c).isSome := by
  intro c hc
  rcases List.mem_append.mp hc with hc | hc
  · rcases List.mem_append.mp hc with hc | hc
    · obtain ⟨v, hv, rfl⟩ := mem_bytesToHex hc
      rw [charToDigit16_hexDigitChar v hv]; rfl
    · cases n <;> simp only [networkPfx, List.mem_cons, List.not_mem_nil, or_false] at hc <;>
        rcases hc with rfl | rfl <;> decide
  · simp only [List.mem_cons, List.not_mem_nil, or_false, or_self] at hc
    subst hc; decide

theorem icanString_eq (pfx : List Char) (cs : Nat) (addr : List Nat) :
    icanString pfx cs addr = pfx ++ pad2 cs ++ bytesToHex addr := by
  unfold icanString pad2
  split_ifs <;> simp

theorem toIcan_struct (addr : List Nat) (n : NetworkType)
    (hlen : addr.length = 20) (hb : ∀ b ∈ addr, b < 256) :
    ∃ cs, 2 ≤ cs ∧ cs ≤ 98 ∧
      get_number_string addr n = some (numberStringSpec addr n) ∧
      calculate_checksum (numberStringSpec addr n) = some cs ∧
      to_ican addr n = some (pfxByte n :: (16 * (cs / 10) + cs % 10) :: addr) := by
  have hgns : get_number_string addr n = some (numberStringSpec addr n) :=
    hexValueString_eq (numberChars_hex addr n)
  have hdig : ∀ c ∈ numberStringSpec addr n, 48 ≤ c.toNat ∧ c.toNat ≤ 57 :=
    hexValueString_digits hgns
  have hfold := checksumFold_eq hdig 0
  set r := (numberStringSpec addr n).foldl (fun a c => (a * 10 + (c.toNat - 48)) % 97) 0 with hr
  have hrlt : r < 97 := checksumFold_lt hfold (by norm_num)
  have hcalc : calculate_checksum (numberStringSpec addr n) = some (98 - r) := by
    rw [calculate_checksum, hfold]; rfl
  refine ⟨98 - r, by omega, by omega, hgns, hcalc, ?_⟩
  have hstr := icanString_eq (networkPfx n) (98 - r) addr
  have hp2 := pad2_eq (98 - r) (by omega)
  have hlen44 : (icanString (networkPfx n) (98 - r) addr).length = 44 := by
    rw [hstr, hp2]
    cases n <;>
      simp [networkPfx, bytesToHex_length, hlen]
  have hd1 : charToDigit16 (decDigitChar ((98 - r) / 10)) = some ((98 - r) / 10) :=
    charToDigit16_decDigitChar _ (by omega)
  have hd2 : charToDigit16 (decDigitChar ((98 - r) % 10)) = some ((98 - r) % 10) :=
    charToDigit16_decDigitChar _ (Nat.mod_lt _ (by norm_num))
  have hmid := parseHexBytes_cons hd1 hd2 (parseHexBytes_bytesToHex hb)
  have hparse : parseHexBytes (icanString (networkPfx n) (98 - r) addr) =
      some (pfxByte n :: (16 * ((98 - r) / 10) + (98 - r) % 10) :: addr) := by
    rw [hstr, hp2]
    cases n
    case Mainnet =>
      have e1 : charToDigit16 'c' = some 12 := by decide
      have e2 : charToDigit16 'b' = some 11 := by decide
      simp only [networkPfx, List.cons_append, List.nil_append,
        parseHexBytes_cons e1 e2 hmid, pfxByte]
    case Testnet =>
      have e1 : charToDigit16 'a' = some 10 := by decide
      have e2 : charToDigit16 'b' = some 11 := by decide
      simp only [networkPfx, List.cons_append, List.nil_append,
        parseHexBytes_cons e1 e2 hmid, pfxByte]
    case Private =>
      have e1 : charToDigit16 'c' = some 12 := by decide
      have e2 : charToDigit16 'e' = some 14 := by decide
      simp only [networkPfx, List.cons_append, List.nil_append,
        parseHexBytes_cons e1 e2 hmid, pfxByte]
  have hfromStr : b176FromStr (icanString (networkPfx n) (98 - r) addr) =
      some (pfxByte n :: (16 * ((98 - r) / 10) + (98 - r) % 10) :: addr) := by
    unfold b176FromStr
    rw [if_pos hlen44, hparse]
  simp only [to_ican, hgns, hcalc, construct_ican_address, hfromStr]

/-! ### Digest and derivation lemmas -/

theorem keccak256_length (msg : List Nat) : (keccak256 msg).length = 32 := by
  simp [keccak256]

theorem keccak256_lt (msg : List Nat) : ∀ b ∈ keccak256 msg, b < 256 := by
  intro b hb
  simp only [keccak256, List.mem_map, List.mem_range] at hb
  obtain ⟨i, _, rfl⟩ := hb
  exact Nat.mod_lt _ (by norm_num)

theorem sliceTo20_of_len {bs : List Nat} (h : bs.length = 20) : sliceTo20 bs = some bs := by
  simp [sliceTo20, h]

theorem keccak_drop12_length (msg : List Nat) :
    ((keccak256 msg).drop 12).length = 20 := by
  simp [keccak256_length]

theorem keccak_drop12_lt (msg : List Nat) : ∀ b ∈ (keccak256 msg).drop 12, b < 256 :=
  fun b hb => keccak256_lt msg b (List.drop_subset _ _ hb)

theorem create_address_eq (caller : List Nat) (nonce : Nat) :
    create_address caller nonce =
      to_ican ((keccak256 (createPreimage caller nonce)).drop 12) NetworkType.Mainnet := by
  unfold create_address
  simp only [sliceTo20_of_len (keccak_drop12_length (createPreimage caller nonce))]

theorem create2_address_eq (caller codeHash : List Nat) (salt : Nat) :
    create2_address caller codeHash salt =
      to_ican ((keccak256 (create2Preimage caller codeHash salt)).drop 12)
        NetworkType.Mainnet := by
  unfold create2_address
  simp only [sliceTo20_of_len (keccak_drop12_length (create2Preimage caller codeHash salt))]

/-! ### RLP and big-endian lemmas -/

theorem natToBEAux_zero (fuel : Nat) (acc : List Nat) : natToBEAux fuel 0 acc = acc := by
  cases fuel <;> rfl

theorem natToBEAux_eq_rev : ∀ (fuel n : Nat) (acc : List Nat),
    natToBEAux fuel n acc = (leBytesAux fuel n).reverse ++ acc := by
  intro fuel
  induction fuel with
  | zero => intro n acc; rfl
  | succ fuel ih =>
    intro n acc
    by_cases h : n = 0
    · simp [natToBEAux, leBytesAux, h]
    · simp [natToBEAux, leBytesAux, h, ih]

theorem u64ToMinBE_eq_spec (n : Nat) : u64ToMinBE n = u64MinBESpec n := by
  simp [u64ToMinBE, u64MinBESpec, natToBEAux_eq_rev]

theorem natToBEAux_len_le : ∀ (fuel n : Nat) (acc : List Nat),
    (natToBEAux fuel n acc).length ≤ fuel + acc.length := by
  intro fuel
  induction fuel with
  | zero => intro n acc; simp [natToBEAux]
  | succ fuel ih =>
    intro n acc
    by_cases h : n = 0
    · simp [natToBEAux, h]
    · simp only [natToBEAux, h, if_false]
      have := ih (n / 256) (n % 256 :: acc)
      simp only [List.length_cons] at this
      omega

theorem natToBEAux_acc_le : ∀ (fuel n : Nat) (acc : List Nat),
    acc.length ≤ (natToBEAux fuel n acc).length := by
  intro fuel
  induction fuel with
  | zero => intro n acc; simp [natToBEAux]
  | succ fuel ih =>
    intro n acc
    by_cases h : n = 0
    · simp [natToBEAux, h]
    · simp only [natToBEAux, h, if_false]
      have := ih (n / 256) (n % 256 :: acc)
      simp only [List.length_cons] at this
      omega

theorem natToBEAux_grow : ∀ (fuel n : Nat) (acc : List Nat), n ≠ 0 → 1 ≤ fuel →
    acc.length + 1 ≤ (natToBEAux fuel n acc).length := by
  intro fuel
  cases fuel with
  | zero => intro n acc _ hf; omega
  | succ fuel =>
    intro n acc h _
    simp only [natToBEAux, h, if_false]
    have := natToBEAux_acc_le fuel (n / 256) (n % 256 :: acc)
    simp only [List.length_cons] at this
    omega

theorem u64ToMinBE_unfold (n : Nat) :
    u64ToMinBE n = if n = 0 then [] else natToBEAux 8 (n / 256) [n % 256] := rfl

theorem u64ToMinBE_single {n : Nat} (h0 : 0 < n) (h : n < 256) : u64ToMinBE n = [n] := by
  rw [u64ToMinBE_unfold, if_neg (by omega), Nat.div_eq_of_lt h, Nat.mod_eq_of_lt h,
    natToBEAux_zero]

theorem u64ToMinBE_two_le {n : Nat} (h : 256 ≤ n) : 2 ≤ (u64ToMinBE n).length := by
  rw [u64ToMinBE_unfold, if_neg (by omega)]
  have h1 : n / 256 ≠ 0 := by omega
  have := natToBEAux_grow 8 (n / 256) [n % 256] h1 (by norm_num)
  simpa using this

theorem u64ToMinBE_len_le (n : Nat) : (u64ToMinBE n).length ≤ 9 := by
  have := natToBEAux_len_le 9 n []
  simpa [u64ToMinBE] using this

theorem rlpEncodeBytes_nonce (n : Nat) :
    rlpEncodeBytes (u64ToMinBE n) =
      (if n = 0 then [0x80]
       else if n < 0x80 then [n]
       else (0x80 + (u64MinBESpec n).length) :: u64MinBESpec n) := by
  by_cases h0 : n = 0
  · subst h0; rfl
  · rw [if_neg h0]
    by_cases h1 : n < 0x80
    · rw [if_pos h1, u64ToMinBE_single (by omega) (by omega)]
      unfold rlpEncodeBytes
      rw [if_pos]
      refine ⟨rfl, ?_⟩
      simpa using h1
    · rw [if_neg h1, ← u64ToMinBE_eq_spec]
      have hguard : ¬((u64ToMinBE n).length = 1 ∧ (u64ToMinBE n).getD 0 0 < 0x80) := by
        by_cases h2 : n < 256
        · rw [u64ToMinBE_single (by omega) h2]
          simp only [List.length_singleton, List.getD_cons_zero]
          omega
        · have := u64ToMinBE_two_le (n := n) (by omega)
          omega
      have hle : (u64ToMinBE n).length ≤ 55 := by
        have := u64ToMinBE_len_le n
        omega
      unfold rlpEncodeBytes
      rw [if_neg hguard, if_pos hle]

theorem rlpListWrap_short {payload : List Nat} (h : payload.length ≤ 55) :
    rlpListWrap payload = (0xc0 + payload.length) :: payload := by
  unfold rlpListWrap
  rw [if_pos h]

theorem createPreimage_eq_spec (caller : List Nat) (nonce : Nat)
    (h22 : caller.length = 22) :
    createPreimage caller nonce = rlpPairSpec caller nonce := by
  have hcallerEnc : rlpEncodeBytes caller = (0x80 + caller.length) :: caller := by
    unfold rlpEncodeBytes
    rw [if_neg (by omega), if_pos (by omega)]
  have hnonceLen : (if nonce = 0 then [0x80]
      else if nonce < 0x80 then [nonce]
      else (0x80 + (u64MinBESpec nonce).length) :: u64MinBESpec nonce).length ≤ 10 := by
    by_cases h0 : nonce = 0
    · simp [h0]
    · rw [if_neg h0]
      by_cases h1 : nonce < 0x80
      · simp [h1]
      · rw [if_neg h1]
        have h9 := u64ToMinBE_len_le nonce
        rw [u64ToMinBE_eq_spec] at h9
        simp only [List.length_cons]
        omega
  unfold createPreimage
  rw [hcallerEnc, rlpEncodeBytes_nonce]
  rw [rlpListWrap_short (by simp only [List.length_append, List.length_cons, h22]; omega)]
  rfl

theorem beVal_u256 {n : Nat} (hn : n < 2 ^ 256) : beVal (u256ToBE32 n) = n := by
  have key : ∀ k, k ≤ 32 →
      ((List.range k).map fun i => n / 2 ^ (8 * (31 - i)) % 256).foldl
        (fun a b => 256 * a + b) 0 = n / 2 ^ (8 * (32 - k)) % 2 ^ (8 * k) := by
    intro k
    induction k with
    | zero => intro _; simp [Nat.mod_one]
    | succ k ih =>
      intro hk
      rw [List.range_succ, List.map_append, List.foldl_append, ih (by omega)]
      simp only [List.map_cons, List.map_nil, List.foldl_cons, List.foldl_nil]
      have e1 : 8 * (32 - k) = 8 * (31 - k) + 8 := by omega
      have e2 : (2 : Nat) ^ 8 = 256 := by norm_num
      have e3 : n / 2 ^ (8 * (32 - k)) = n / 2 ^ (8 * (31 - k)) / 256 := by
        rw [e1, pow_add, e2, Nat.div_div_eq_div_mul]
      have e4 : 32 - (k + 1) = 31 - k := by omega
      have e5 : (2 : Nat) ^ (8 * (k + 1)) = 256 * 2 ^ (8 * k) := by
        rw [show 8 * (k + 1) = 8 + 8 * k by ring, pow_add, e2]
      rw [e3, e4, e5, Nat.mod_mul]
      omega
  have h32 := key 32 le_rfl
  unfold beVal u256ToBE32
  rw [h32]
  have h0 : 8 * (32 - 32) = 0 := by norm_num
  rw [h0, pow_zero, Nat.div_one, Nat.mod_eq_of_lt (by norm_num at hn ⊢; omega)]

theorem decDigitChar_toNat : ∀ d < 10, (decDigitChar d).toNat = 48 + d := by
  decide

/-! ### The claims -/

/-- C4: for every decimal numeral string, `calculate_checksum` equals
folding left to right with `acc = (acc*10 + digit) % 97` starting from
0 and returning `98 - acc`. -/
theorem claim_C4 (s : List Char) (h : ∀ c ∈ s, 48 ≤ c.toNat ∧ c.toNat ≤ 57) :
    calculate_checksum s = some (98 - specChecksumFold s) := by
  rw [calculate_checksum, checksumFold_eq h 0]
  rfl

/-- C4 witness: the fold characterisation at the concrete numeral
string "97". -/
theorem claim_C4_witness :
    (∀ c ∈ "97".toList, 48 ≤ c.toNat ∧ c.toNat ≤ 57) ∧
    calculate_checksum "97".toList = some (98 - specChecksumFold "97".toList) :=
  ⟨by decide, claim_C4 "97".toList (by decide)⟩

/-- C5 counterexample: the intermediate string of address hex, network
prefix and "00" has 44 characters, not the 42 the spec states, already
at a concrete 20-byte address. -/
theorem claim_C5_cex :
    (bytesToHex (hexToBytes "e8cF4629ACB360350399B6CFF367A97CF36E62B9".toList) ++
      networkPfx NetworkType.Mainnet ++ ['0', '0']).length ≠ 42 := by
  decide

/-- C5 (amended): `get_number_string` maps the 44-character string of
address hex (40), network prefix (2) and "00" (2) character by
character to the decimal text of each hex digit value. -/
theorem claim_C5 (addr : List Nat) (n : NetworkType) (h20 : addr.length = 20)
    (hb : ∀ b ∈ addr, b < 256) :
    (bytesToHex addr ++ networkPfx n ++ ['0', '0']).length = 44 ∧
    get_number_string addr n = some (numberStringSpec addr n) := by
  constructor
  · cases n <;> simp [networkPfx, bytesToHex_length, h20]
  · exact hexValueString_eq (numberChars_hex addr n)

/-- C5 witness: the characterisation at the all-zero 20-byte address
on Mainnet. -/
theorem claim_C5_witness :
    (List.replicate 20 0).length = 20 ∧ (∀ b ∈ List.replicate 20 0, b < 256) ∧
    ((bytesToHex (List.replicate 20 0) ++ networkPfx NetworkType.Mainnet ++
        ['0', '0']).length = 44 ∧
     get_number_string (List.replicate 20 0) NetworkType.Mainnet =
       some (numberStringSpec (List.replicate 20 0) NetworkType.Mainnet)) :=
  ⟨by decide, by decide,
    claim_C5 (List.replicate 20 0) NetworkType.Mainnet (by decide) (by decide)⟩

/-- C7: the checksum embedded in the encoded address lies in [2, 98]
and is formatted as exactly two decimal digits, left-zero-padded when
below 10. -/
theorem claim_C7 (addr : List Nat) (n : NetworkType) (h20 : addr.length = 20)
    (hb : ∀ b ∈ addr, b < 256) :
    ∃ s cs, get_number_string addr n = some s ∧ calculate_checksum s = some cs ∧
      2 ≤ cs ∧ cs ≤ 98 ∧
      icanString (networkPfx n) cs addr = networkPfx n ++ pad2 cs ++ bytesToHex addr ∧
      (pad2 cs).length = 2 ∧ decValue (pad2 cs) = cs ∧
      (cs < 10 → (pad2 cs).take 1 = ['0']) := by
  obtain ⟨cs, h2, h98, hgns, hcalc, -⟩ := toIcan_struct addr n h20 hb
  have hp2 := pad2_eq cs (by omega)
  have t1 := decDigitChar_toNat (cs / 10) (by omega)
  have t2 := decDigitChar_toNat (cs % 10) (Nat.mod_lt _ (by norm_num))
  refine ⟨_, cs, hgns, hcalc, h2, h98, icanString_eq _ _ _, ?_, ?_, ?_⟩
  · rw [hp2]; rfl
  · rw [hp2]
    simp only [decValue, List.foldl_cons, List.foldl_nil, t1, t2]
    omega
  · intro h10
    rw [hp2]
    have hq : cs / 10 = 0 := by omega
    rw [hq]
    rfl

/-- C7 witness: the checksum bounds and formatting at the all-zero
20-byte address on Testnet. -/
theorem claim_C7_witness :
    ∃ s cs, get_number_string (List.replicate 20 0) NetworkType.Testnet = some s ∧
      calculate_checksum s = some cs ∧ 2 ≤ cs ∧ cs ≤ 98 ∧
      icanString (networkPfx NetworkType.Testnet) cs (List.replicate 20 0) =
        networkPfx NetworkType.Testnet ++ pad2 cs ++ bytesToHex (List.replicate 20 0) ∧
      (pad2 cs).length = 2 ∧ decValue (pad2 cs) = cs ∧
      (cs < 10 → (pad2 cs).take 1 = ['0']) :=
  claim_C7 (List.replicate 20 0) NetworkType.Testnet (by decide) (by decide)

/-- C10: the last 20 bytes of the 22-byte encoded address returned by
`to_ican` equal the raw address byte for byte. -/
theorem claim_C10 (addr : List Nat) (n : NetworkType) (h20 : addr.length = 20)
    (hb : ∀ b ∈ addr, b < 256) :
    ∃ bs, to_ican addr n = some bs ∧ bs.length = 22 ∧ bs.drop 2 = addr := by
  obtain ⟨cs, -, -, -, -, hti⟩ := toIcan_struct addr n h20 hb
  exact ⟨_, hti, by simp [h20], rfl⟩

/-- C10 witness: raw-address recovery at the all-zero 20-byte address
on Private. -/
theorem claim_C10_witness :
    ∃ bs, to_ican (List.replicate 20 0) NetworkType.Private = some bs ∧
      bs.length = 22 ∧ bs.drop 2 = List.replicate 20 0 :=
  claim_C10 (List.replicate 20 0) NetworkType.Private (by decide) (by decide)

/-- C9: over well-typed inputs the encoding path never fails: `to_ican`,
`create_address` and `create2_address` always return a value (the
`expect`/`unwrap` branches are unreachable). -/
theorem claim_C9 :
    (∀ addr n, addr.length = 20 → (∀ b ∈ addr, b < 256) →
      (to_ican addr n).isSome = true) ∧
    (∀ caller nonce, caller.length = 22 → (∀ b ∈ caller, b < 256) → nonce < 2 ^ 64 →
      (create_address caller nonce).isSome = true) ∧
    (∀ caller codeHash salt, caller.length = 22 → (∀ b ∈ caller, b < 256) →
      codeHash.length = 32 → (∀ b ∈ codeHash, b < 256) → salt < 2 ^ 256 →
      (create2_address caller codeHash salt).isSome = true) := by
  refine ⟨?_, ?_, ?_⟩
  · intro addr n h20 hb
    obtain ⟨cs, -, -, -, -, hti⟩ := toIcan_struct addr n h20 hb
    rw [hti]; rfl
  · intro caller nonce h22 hb hn
    rw [create_address_eq]
    obtain ⟨cs, -, -, -, -, hti⟩ := toIcan_struct _ NetworkType.Mainnet
      (keccak_drop12_length (createPreimage caller nonce)) (keccak_drop12_lt _)
    rw [hti]; rfl
  · intro caller codeHash salt h22 hb hch hchb hs
    rw [create2_address_eq]
    obtain ⟨cs, -, -, -, -, hti⟩ := toIcan_struct _ NetworkType.Mainnet
      (keccak_drop12_length (create2Preimage caller codeHash salt)) (keccak_drop12_lt _)
    rw [hti]; rfl

/-- C9 witness: totality of `to_ican` at the all-zero 20-byte address
on Mainnet. -/
theorem claim_C9_witness :
    (to_ican (List.replicate 20 0) NetworkType.Mainnet).isSome = true :=
  claim_C9.1 (List.replicate 20 0) NetworkType.Mainnet (by decide) (by decide)

/-- C8: both derivation schemes hand the derived raw address to the
checksum encoder with the network tag hard-coded to Mainnet, and the
textual form of the returned 22-byte encoded address has length 44 and
begins with "cb". -/
theorem claim_C8 :
    (∀ caller nonce, caller.length = 22 → (∀ b ∈ caller, b < 256) → nonce < 2 ^ 64 →
      create_address caller nonce =
        to_ican ((keccak256 (createPreimage caller nonce)).drop 12) NetworkType.Mainnet ∧
      ∃ bs, create_address caller nonce = some bs ∧ bs.length = 22 ∧
        (bytesToHex bs).length = 44 ∧ (bytesToHex bs).take 2 = ['c', 'b']) ∧
    (∀ caller codeHash salt, caller.length = 22 → (∀ b ∈ caller, b < 256) →
        codeHash.length = 32 → (∀ b ∈ codeHash, b < 256) → salt < 2 ^ 256 →
      create2_address caller codeHash salt =
        to_ican ((keccak256 (create2Preimage caller codeHash salt)).drop 12)
          NetworkType.Mainnet ∧
      ∃ bs, create2_address caller codeHash salt = some bs ∧ bs.length = 22 ∧
        (bytesToHex bs).length = 44 ∧ (bytesToHex bs).take 2 = ['c', 'b']) := by
  constructor
  · intro caller nonce h22 hb hn
    have heq := create_address_eq caller nonce
    obtain ⟨cs, -, -, -, -, hti⟩ := toIcan_struct _ NetworkType.Mainnet
      (keccak_drop12_length (createPreimage caller nonce)) (keccak_drop12_lt _)
    refine ⟨heq, _, heq.trans hti, ?_, ?_, rfl⟩
    · simp [keccak256_length]
    · rw [bytesToHex_length]
      simp [keccak256_length]
  · intro caller codeHash salt h22 hb hch hchb hs
    have heq := create2_address_eq caller codeHash salt
    obtain ⟨cs, -, -, -, -, hti⟩ := toIcan_struct _ NetworkType.Mainnet
      (keccak_drop12_length (create2Preimage caller codeHash salt)) (keccak_drop12_lt _)
    refine ⟨heq, _, heq.trans hti, ?_, ?_, rfl⟩
    · simp [keccak256_length]
    · rw [bytesToHex_length]
      simp [keccak256_length]

/-- C8 witness: the Mainnet-prefixed 44-character shape at the
all-zero 22-byte caller with nonce 0. -/
theorem claim_C8_witness :
    create_address (List.replicate 22 0) 0 =
      to_ican ((keccak256 (createPreimage (List.replicate 22 0) 0)).drop 12)
        NetworkType.Mainnet ∧
    ∃ bs, create_address (List.replicate 22 0) 0 = some bs ∧ bs.length = 22 ∧
      (bytesToHex bs).length = 44 ∧ (bytesToHex bs).take 2 = ['c', 'b'] :=
  claim_C8.1 (List.replicate 22 0) 0 (by decide) (by decide) (by decide)

/-- C2 (amended): the digest pre-image of `create_address` is the
canonical RLP encoding of the two-element list holding the caller's
FULL 22-byte encoded address (network prefix and checksum included)
and the nonce; the digest has 32 bytes and its last 20 bytes are the
new raw address, checksum-encoded with Mainnet. -/
theorem claim_C2 (caller : List Nat) (nonce : Nat) (h22 : caller.length = 22)
    (hn : nonce < 2 ^ 64) :
    (keccak256 (rlpPairSpec caller nonce)).length = 32 ∧
    create_address caller nonce =
      to_ican ((keccak256 (rlpPairSpec caller nonce)).drop (32 - 20))
        NetworkType.Mainnet := by
  refine ⟨keccak256_length _, ?_⟩
  have h12 : (32 : Nat) - 20 = 12 := by norm_num
  rw [h12, create_address_eq, createPreimage_eq_spec caller nonce h22]

/-- C2 witness: the amended pre-image characterisation at the all-zero
22-byte caller with nonce 1. -/
theorem claim_C2_witness :
    (keccak256 (rlpPairSpec (List.replicate 22 0) 1)).length = 32 ∧
    create_address (List.replicate 22 0) 1 =
      to_ican ((keccak256 (rlpPairSpec (List.replicate 22 0) 1)).drop (32 - 20))
        NetworkType.Mainnet :=
  claim_C2 (List.replicate 22 0) 1 (by decide) (by decide)

/-- C3 (amended): the hash pre-image of `create2_address` is the
concatenation, in order, of the 0xFF marker, the caller's FULL 22
bytes, the salt's 32-byte big-endian representation and the 32-byte
code hash; the digest has 32 bytes and its last 20 bytes are the new
raw address, checksum-encoded with Mainnet. -/
theorem claim_C3 (caller codeHash : List Nat) (salt : Nat)
    (h22 : caller.length = 22) (hch : codeHash.length = 32) (hs : salt < 2 ^ 256) :
    (u256ToBE32 salt).length = 32 ∧ beVal (u256ToBE32 salt) = salt ∧
    (keccak256 (0xff :: (caller ++ u256ToBE32 salt ++ codeHash))).length = 32 ∧
    create2_address caller codeHash salt =
      to_ican ((keccak256 (0xff :: (caller ++ u256ToBE32 salt ++ codeHash))).drop
        (32 - 20)) NetworkType.Mainnet := by
  refine ⟨by simp [u256ToBE32], beVal_u256 hs, keccak256_length _, ?_⟩
  have h12 : (32 : Nat) - 20 = 12 := by norm_num
  rw [h12, create2_address_eq]
  rfl

/-- C3 witness: the amended pre-image characterisation at the all-zero
22-byte caller, all-zero 32-byte code hash and salt 1. -/
theorem claim_C3_witness :
    (u256ToBE32 1).length = 32 ∧ beVal (u256ToBE32 1) = 1 ∧
    (keccak256 (0xff :: (List.replicate 22 0 ++ u256ToBE32 1 ++
      List.replicate 32 0))).length = 32 ∧
    create2_address (List.replicate 22 0) (List.replicate 32 0) 1 =
      to_ican ((keccak256 (0xff :: (List.replicate 22 0 ++ u256ToBE32 1 ++
        List.replicate 32 0))).drop (32 - 20)) NetworkType.Mainnet :=
  claim_C3 (List.replicate 22 0) (List.replicate 32 0) 1 (by decide) (by decide)
    (by decide)

set_option maxRecDepth 4000000 in
/-- C1: for caller `cb72e8cF4629ACB360350399B6CFF367A97CF36E62B9` and
nonce 1, `create_address` returns the encoded address
`cb41485a42277ed7f4fea81cc12efd12d57dcb549150`. -/
theorem claim_C1 :
    create_address (hexToBytes "cb72e8cF4629ACB360350399B6CFF367A97CF36E62B9".toList) 1 =
      some (hexToBytes "cb41485a42277ed7f4fea81cc12efd12d57dcb549150".toList) := by
  decide

set_option maxRecDepth 4000000 in
/-- C6: for the raw address `e8cF4629ACB360350399B6CFF367A97CF36E62B9`
on Mainnet, the intermediate numeral string and the checksum are the
quoted test vector values. -/
theorem claim_C6 :
    get_number_string (hexToBytes "e8cF4629ACB360350399B6CFF367A97CF36E62B9".toList)
        NetworkType.Mainnet =
      some "1481215462910121136035039911612151536710971215361462119121100".toList ∧
    calculate_checksum
        "1481215462910121136035039911612151536710971215361462119121100".toList =
      some 72 := by
  constructor <;> decide

set_option maxRecDepth 4000000 in
/-- C2 counterexample: at the first test vector, digesting the RLP
pair built from the caller's RAW 20-byte identity (as the spec states)
does not reproduce `create_address`, which digests the full 22-byte
caller. -/
theorem claim_C2_cex :
    to_ican ((keccak256 (createPreimageClaim
        (hexToBytes "cb72e8cF4629ACB360350399B6CFF367A97CF36E62B9".toList) 1)).drop 12)
      NetworkType.Mainnet ≠
    create_address (hexToBytes "cb72e8cF4629ACB360350399B6CFF367A97CF36E62B9".toList) 1 := by
  decide

set_option maxRecDepth 4000000 in
/-- C3 counterexample: at the first create2 test vector, digesting the
concatenation built from the caller's RAW 20 bytes (as the spec
states) does not reproduce `create2_address`, which hashes the full
22-byte caller. -/
theorem claim_C3_cex :
    to_ican ((keccak256 (create2PreimageClaim
        (hexToBytes "cb72e8cF4629ACB360350399B6CFF367A97CF36E62B9".toList)
        (List.replicate 32 10) 239048)).drop 12)
      NetworkType.Mainnet ≠
    create2_address (hexToBytes "cb72e8cF4629ACB360350399B6CFF367A97CF36E62B9".toList)
      (List.replicate 32 10) 239048 := by
  decide
